import Mathlib

/-!
Shallow embedding of the CI failure-triage GitHub Action
(`src/dist/ci-index.js`) and verification of its specification.

The JavaScript source is a single file.  Pure string/list logic
(`pickFailedJob`, `pickFailedStep`, `trimLog`, `renderTemplate`,
`createOrUpdateComment`, input parsing) is translated into executable Lean
functions; the effectful orchestrator `main` is modelled as a pure function
`mainModel` from the validated inputs and the (successful) responses of the
external services to a record of the observable actions it performs.
JavaScript strings are modelled as Lean `String` (a wrapper around
`List Char`); JavaScript numbers appearing as parsed timestamps or
`parseInt` results are modelled as `Nat`/`Int`.
-/

/-- JS whitespace characters relevant to `String.prototype.trim` for the
ASCII inputs handled here. -/
def isJsWhitespace (c : Char) : Bool :=
  c = ' ' ∨ c = '\t' ∨ c = '\n' ∨ c = '\x0d' ∨ c = '\x0b' ∨ c = '\x0c'

/-- Model of `value.trim()`. -/
def jsTrim (s : String) : String :=
  ⟨((s.data.dropWhile isJsWhitespace).reverse.dropWhile isJsWhitespace).reverse⟩

/-- ASCII lower-casing of one character, as `String.prototype.toLowerCase`
acts on the ASCII conclusions used by the action. -/
def jsToLowerChar (c : Char) : Char :=
  if 'A' ≤ c ∧ c ≤ 'Z' then Char.ofNat (c.toNat + 32) else c

/-- Model of `s.toLowerCase()`. -/
def jsToLower (s : String) : String :=
  ⟨s.data.map jsToLowerChar⟩

/-- Model of the JS `a || b` idiom on strings: the empty string is falsy. -/
def jsOr (a b : String) : String :=
  if a = "" then b else a

/-- `const MARKER = '<!-- ai-ci-helper -->'` (line 3). -/
def MARKER : String := "<!-- ai-ci-helper -->"

/-- `const FAILURE_CONCLUSIONS = new Set(['failure', 'timed_out',
'cancelled', 'action_required'])` (line 5). -/
def FAILURE_CONCLUSIONS : List String :=
  ["failure", "timed_out", "cancelled", "action_required"]

/-- A workflow job step: display name and nullable conclusion.
`none` models a null/undefined/pending conclusion (JS falsy). -/
structure Step where
  name : String
  conclusion : Option String
deriving DecidableEq

/-- A workflow job.  `steps = none` models a missing/non-array `steps`
field (`Array.isArray` guard in the source).  `completed_at`/`started_at`
are the `Date.parse` values of the corresponding timestamp strings;
`none` models a null/empty timestamp (JS falsy). -/
structure Job where
  id : Nat
  name : String
  conclusion : Option String
  steps : Option (List Step)
  completed_at : Option Nat
  started_at : Option Nat
deriving DecidableEq

/-- `FAILURE_CONCLUSIONS.has(String(x.conclusion || '').toLowerCase())`
(lines 93-95, 114). -/
def isFailureConclusion (c : Option String) : Bool :=
  FAILURE_CONCLUSIONS.contains (jsToLower (c.getD ""))

/-- The filter predicate of `pickFailedJob` (lines 92-97): the job's own
conclusion is in the failure set, or some step's conclusion is. -/
def isFailedJob (j : Job) : Bool :=
  isFailureConclusion j.conclusion ||
    (j.steps.getD []).any (fun st => isFailureConclusion st.conclusion)

/-- Value of `Date.parse(0)` = `Date.parse("0")`, used only when both
timestamps are absent.  Its exact value is environment-dependent in V8 and
never affects a claim (no claim compares a both-absent job); any fixed
constant is a faithful model. -/
def dateParseZero : Nat := 0

/-- `Date.parse(j.completed_at || j.started_at || 0)` (lines 100-101). -/
def jobTime (j : Job) : Nat :=
  j.completed_at.getD (j.started_at.getD dateParseZero)

/-- Stable insertion of a job into a list sorted by `jobTime` descending.
Together with `sortByTimeDesc` this is the unique stable sort for the JS
comparator `(a, b) => bTime - aTime` (line 99-103); V8's `Array.prototype.sort`
is stable, and a stable sort is determined by its comparator. -/
def insertByTimeDesc (x : Job) : List Job → List Job
  | [] => [x]
  | y :: ys =>
    if jobTime y ≤ jobTime x then x :: y :: ys else y :: insertByTimeDesc x ys

/-- Stable sort by `jobTime` descending (model of `failedJobs.sort(...)`,
lines 99-103). -/
def sortByTimeDesc : List Job → List Job
  | [] => []
  | x :: xs => insertByTimeDesc x (sortByTimeDesc xs)

/-- `pickFailedJob` (lines 91-106): filter the failure candidates, sort by
completion (fallback start) time descending, take the first; `null` when
none. -/
def pickFailedJob (jobs : List Job) : Option Job :=
  (sortByTimeDesc (jobs.filter isFailedJob)).head?

/-- `pickFailedStep` (lines 110-116): among the job's failed steps take the
last one (`failedSteps[failedSteps.length - 1] || failedSteps[0] || null`
is the last element when any exists, else null); `null` when `steps` is not
an array. -/
def pickFailedStep (job : Job) : Option Step :=
  match job.steps with
  | none => none
  | some steps => (steps.filter (fun st => isFailureConclusion st.conclusion)).getLast?

/-- Modelled from the spec (§4.2, §8): "sort candidates by completion
timestamp (falling back to start timestamp when completion is absent)
descending, and take the first.  Ties are broken by input order" — i.e. the
first candidate, in input order, whose time is greatest among the
candidates.  Used only as the specification side of the refinement for the
selection policy. -/
def latestFailedJobSpec (jobs : List Job) : Option Job :=
  let cands := jobs.filter isFailedJob
  cands.find? (fun j => cands.all (fun k => jobTime k ≤ jobTime j))

/-- `String(logText || '').split(/\r?\n/)` (line 126), on the character
list: a bare `'\n'` or a `'\r''\n'` pair separates lines; a lone `'\r'`
(not followed by `'\n'`) is ordinary content, exactly as the regex
`\r?\n` matches. -/
def splitRN : List Char → List (List Char)
  | [] => [[]]
  | '\n' :: rest => [] :: splitRN rest
  | '\x0d' :: '\n' :: rest => [] :: splitRN rest
  | c :: rest =>
    match splitRN rest with
    | [] => [[c]]
    | l :: ls => (c :: l) :: ls

/-- `lines.join('\n')` (lines 128, 131). -/
def joinNL : List (List Char) → List Char
  | [] => []
  | [l] => l
  | l :: ls => l ++ '\n' :: joinNL ls

/-- Newline normalisation: replace every `'\r''\n'` pair by `'\n'`, leave
everything else (including lone `'\r'`) unchanged.  This is what
splitting on `\r?\n` and rejoining with `'\n'` does to a text that fits
within `maxLines`. -/
def normNL : List Char → List Char
  | [] => []
  | '\n' :: rest => '\n' :: normNL rest
  | '\x0d' :: '\n' :: rest => '\n' :: normNL rest
  | c :: rest => c :: normNL rest

/-- `lines.slice(-maxLines)` (line 130).  In JS `slice(-0)` is `slice(0)`
(the whole array), and `slice(-k)` for `k ≥ 1` is the last `k` elements
(all of them when `k ≥ length`). -/
def sliceLast (lines : List (List Char)) (maxLines : Nat) : List (List Char) :=
  if maxLines = 0 then lines else lines.drop (lines.length - maxLines)

/-- `trimLog` (lines 125-132): split into lines, return the full rejoined
text when it fits, else the rejoined last `maxLines` lines; the reported
total is always the pre-trim line count. -/
def trimLog (logText : String) (maxLines : Nat) : String × Nat :=
  let lines := splitRN logText.data
  if lines.length ≤ maxLines then (⟨joinNL lines⟩, lines.length)
  else (⟨joinNL (sliceLast lines maxLines)⟩, lines.length)

/-- The literal token for a context key: backtick-free model of the JS
template literal forming the token from `{{` , the key and `}}`
(line 143). -/
def tokenOf (key : String) : String :=
  ⟨'{' :: '{' :: key.data ++ ['}', '}']⟩

/-- `s.includes(p)` on character lists: some suffix of `s` has `p` as a
prefix (line 136 uses it on the template and the LOG token). -/
def containsList (s p : List Char) : Bool :=
  match s with
  | [] => p.isEmpty
  | _ :: rest => p.isPrefixOf s || containsList rest p

/-- Fuel-indexed scanner of `acc.split(pattern)` for a nonempty pattern
`a :: p`: leftmost-first, non-overlapping matches, continuing after each
match, exactly as `String.prototype.split` with a plain (regex-free)
separator.  The fuel only forces structural termination; `splitGo` below
always supplies enough. -/
def splitGoFuel (a : Char) (p : List Char) : Nat → List Char → List (List Char)
  | _, [] => [[]]
  | 0, c :: rest => [c :: rest]
  | fuel + 1, c :: rest =>
    if (a :: p).isPrefixOf (c :: rest) then
      [] :: splitGoFuel a p fuel (rest.drop p.length)
    else
      match splitGoFuel a p fuel rest with
      | [] => [[c]]
      | l :: ls => (c :: l) :: ls

/-- `s.split(a :: p)` for a nonempty separator. -/
def splitGo (a : Char) (p : List Char) (s : List Char) : List (List Char) :=
  splitGoFuel a p s.length s

/-- `s.split(sep)`: the empty separator splits into single characters in
JS; the action's separators (the placeholder tokens) are never empty. -/
def splitOnL (sep s : List Char) : List (List Char) :=
  match sep with
  | [] => s.map (fun c => [c])
  | a :: p => splitGo a p s

/-- `pieces.join(sep)` (JS `Array.prototype.join`). -/
def intercalateL (sep : List Char) : List (List Char) → List Char
  | [] => []
  | [x] => x
  | x :: xs => x ++ sep ++ intercalateL sep xs

/-- `acc.split(tok).join(val)` — the replace-all-occurrences idiom of
`renderTemplate` (line 143). -/
def replaceAll (tok val s : List Char) : List Char :=
  intercalateL val (splitOnL tok s)

/-- `renderTemplate` (lines 142-144): left fold of the replace-all steps
over the context entries, in entry order. -/
def renderTemplate (template : String) (values : List (String × String)) : String :=
  ⟨values.foldl (fun acc kv => replaceAll (tokenOf kv.1).data kv.2.data acc) template.data⟩

/-- A pattern is borderless when no proper nonempty prefix of it is also a
suffix.  The placeholder tokens (two braces, a key of brace-free
characters, two braces) are borderless, which makes occurrences
non-overlapping and the split/join replacement well behaved. -/
abbrev Borderless (p : List Char) : Prop :=
  ∀ k, k < p.length → 0 < k → p.take k ≠ p.drop (p.length - k)

/-- ASCII decimal digit test. -/
def isDigitChar (c : Char) : Bool := '0' ≤ c ∧ c ≤ '9'

/-- `Number.parseInt(s, 10)` (line 265): skip leading whitespace, read an
optional sign and the longest prefix of decimal digits; `none` models NaN
(no digits).  `parseInt` with radix 10 never yields a non-NaN non-integer,
and `Number.isFinite` on its result is exactly "not NaN". -/
def parseIntDec (s : String) : Option Int :=
  let cs := s.data.dropWhile isJsWhitespace
  let signAndRest : Int × List Char :=
    match cs with
    | '-' :: rest => (-1, rest)
    | '+' :: rest => (1, rest)
    | _ => (1, cs)
  let digits := signAndRest.2.takeWhile isDigitChar
  if digits = [] then none
  else some (signAndRest.1 * (digits.foldl (fun acc c => acc * 10 + (c.toNat - 48)) 0 : Nat))

/-- `getInput(name, { required, defaultValue })` (lines 9-19): a missing or
blank value yields the default, or an error when required; otherwise the
trimmed value. -/
def getInputModel (name : String) (value : Option String) (required : Bool)
    (defaultValue : String) : Except String String :=
  match value with
  | none => if required then .error ("Missing required input: " ++ name) else .ok defaultValue
  | some s =>
    if jsTrim s = "" then
      if required then .error ("Missing required input: " ++ name) else .ok defaultValue
    else .ok (jsTrim s)

/-- Resolution and validation of `max_log_lines` (lines 264-270): optional
input with default `"500"`, parsed with `Number.parseInt(·, 10)`, rejected
with a fixed error unless the parse result is a finite number `> 0`. -/
def resolveMaxLogLines (value : Option String) : Except String Int :=
  match getInputModel "max_log_lines" value false "500" with
  | .error e => .error e
  | .ok s =>
    match parseIntDec s with
    | none => .error "max_log_lines must be a positive integer."
    | some i =>
      if i ≤ 0 then .error "max_log_lines must be a positive integer."
      else .ok i

/-- The raw invocation inputs of `main` (lines 261-266): the `INPUT_*`
values and the `GITHUB_TOKEN` environment variable; `none` models an unset
variable. -/
structure Inputs where
  openrouterApiKey : Option String
  model : Option String
  promptTemplate : Option String
  maxLogLines : Option String
  githubToken : Option String
deriving DecidableEq

/-- The validated configuration `main` proceeds with. -/
structure Config where
  apiKey : String
  model : String
  promptTemplate : String
  maxLogLines : Nat
  githubToken : String
deriving DecidableEq

/-- Input validation prefix of `main` (lines 261-276), in source order:
the three required inputs, the `max_log_lines` parse/positivity check, the
`GITHUB_TOKEN` presence check (empty string is falsy), and
`ensurePromptTemplate`'s check that the template contains the literal
LOG token.  The validated positive `max_log_lines` is stored as a `Nat`. -/
def validateInputs (inp : Inputs) : Except String Config :=
  match getInputModel "openrouter_api_key" inp.openrouterApiKey true "" with
  | .error e => .error e
  | .ok apiKey =>
  match getInputModel "model" inp.model true "" with
  | .error e => .error e
  | .ok model =>
  match getInputModel "prompt_template" inp.promptTemplate true "" with
  | .error e => .error e
  | .ok promptTemplate =>
  match resolveMaxLogLines inp.maxLogLines with
  | .error e => .error e
  | .ok maxLogLines =>
  match inp.githubToken with
  | none => .error "GITHUB_TOKEN is required to call GitHub API."
  | some tok =>
    if tok = "" then .error "GITHUB_TOKEN is required to call GitHub API."
    else if containsList promptTemplate.data (tokenOf "LOG").data then
      .ok { apiKey := apiKey, model := model, promptTemplate := promptTemplate,
            maxLogLines := maxLogLines.toNat, githubToken := tok }
    else .error "prompt_template must include \x7b\x7bLOG\x7d\x7d placeholder."

/-- The single HTTP request `createOrUpdateComment` issues (lines 201-216):
a PATCH of the existing comment when a truthy id was supplied, otherwise a
POST creating a comment on the issue.  GitHub comment ids are positive;
`0` is modelled faithfully as the JS falsy case. -/
inductive CommentRequest where
  | patchComment (commentId : Nat) (body : String)
  | postComment (issueNumber : Nat) (body : String)
deriving DecidableEq

/-- `createOrUpdateComment` (lines 201-216), modelled as the request it
issues. -/
def createOrUpdateComment (issueNumber : Nat) (body : String)
    (existingId : Option Nat) : CommentRequest :=
  match existingId with
  | some cid => if cid = 0 then .postComment issueNumber body else .patchComment cid body
  | none => .postComment issueNumber body

/-- `trimmedLog || 'Log is empty.'` (line 313): the sentinel replaces only
the JS-falsy (empty) trimmed log. -/
def logForPrompt (trimmedLog : String) : String :=
  if trimmedLog = "" then "Log is empty." else trimmedLog

/-- The run-status gate of `main` (lines 284-288):
`if (runConclusion && !FAILURE_CONCLUSIONS.has(runConclusion))` — a falsy
(absent or empty) conclusion does NOT exit. -/
def shouldSkipRun (runConclusion : Option String) : Bool :=
  (jsToLower (runConclusion.getD "") != "") &&
    !(FAILURE_CONCLUSIONS.contains (jsToLower (runConclusion.getD "")))


instance {α β : Type} [DecidableEq α] [DecidableEq β] : DecidableEq (Except α β) := fun a b =>
  match a, b with
  | .error x, .error y =>
    if h : x = y then .isTrue (by rw [h])
    else .isFalse (by intro hc; cases hc; exact h rfl)
  | .error _, .ok _ => .isFalse (by intro hc; cases hc)
  | .ok _, .error _ => .isFalse (by intro hc; cases hc)
  | .ok x, .ok y =>
    if h : x = y then .isTrue (by rw [h])
    else .isFalse (by intro hc; cases hc; exact h rfl)

/-- The environment `main` observes once its network calls succeed: the
run's conclusion, the fetched jobs, the fetched log text, the outcome of
the OpenRouter call (`.error` carries the thrown message), the resolved
pull-request number (`none` when no PR context) and the id of the marker
comment found by `findExistingComment` (`none` when absent). -/
structure EnvData where
  runConclusion : Option String
  workflowName : String
  jobs : List Job
  logText : String
  backendResult : Except String String
  prNumber : Option Nat
  existingCommentId : Option Nat
deriving DecidableEq

/-- The observable actions of one `main` invocation: which fetches
happened, the rendered prompt, the analysis text, the comment request
issued (if any), and the error it threw (if any). -/
structure MainResult where
  error : Option String := none
  jobsFetched : Bool := false
  logFetched : Bool := false
  backendCalled : Bool := false
  prompt : Option String := none
  analysis : Option String := none
  commentOp : Option CommentRequest := none
deriving DecidableEq

/-- Lines 302-357 of `main`: step selection, log fetch and trim, prompt
rendering, the OpenRouter call with its catch substituting the diagnostic
analysis, body construction, and the PR-comment upsert guarded by the
(truthy) PR number. -/
def analyzeJob (cfg : Config) (env : EnvData) (failedJob : Job) : MainResult :=
  let stepName := match pickFailedStep failedJob with
    | some st => st.name
    | none => "Unknown step"
  let tl := trimLog env.logText cfg.maxLogLines
  let prompt := renderTemplate cfg.promptTemplate
    [("LOG", logForPrompt tl.1),
     ("WORKFLOW_NAME", jsOr env.workflowName ""),
     ("JOB_NAME", jsOr failedJob.name ""),
     ("STEP_NAME", jsOr stepName "")]
  let analysis := match env.backendResult with
    | .ok content => content
    | .error msg => "Не удалось получить ответ от OpenRouter: " ++ msg
  let body := String.intercalate "\n"
    [MARKER,
     "CI Failure Analysis (workflow: " ++ env.workflowName ++ ", job: "
       ++ failedJob.name ++ ", step: " ++ stepName ++ ")",
     analysis,
     "Generated automatically after workflow failure."]
  let base : MainResult :=
    { jobsFetched := true, logFetched := true, backendCalled := true,
      prompt := some prompt, analysis := some analysis }
  match env.prNumber with
  | none => base
  | some pr =>
    if pr = 0 then base
    else { base with commentOp := some (createOrUpdateComment pr body env.existingCommentId) }

/-- Lines 283-300 of `main` after validation: the run-conclusion gate, the
jobs fetch with its emptiness check, and the failed-job selection. -/
def runWith (cfg : Config) (env : EnvData) : MainResult :=
  if shouldSkipRun env.runConclusion then {}
  else if env.jobs.isEmpty then
    { jobsFetched := true, error := some "No jobs found for this workflow run." }
  else
    match pickFailedJob env.jobs with
    | none => { jobsFetched := true, error := some "Failed to locate a failed job; aborting." }
    | some failedJob => analyzeJob cfg env failedJob

/-- The whole of `main` (lines 260-358) as a pure function: validate the
inputs, then run; a validation error is thrown before any network call, so
nothing is fetched and no action is performed. -/
def mainModel (inp : Inputs) (env : EnvData) : MainResult :=
  match validateInputs inp with
  | .error e => { error := some e }
  | .ok cfg => runWith cfg env

/-- Sample succeeding job (not a failure candidate). -/
def jobOk : Job :=
  { id := 1, name := "build", conclusion := some "success",
    steps := some [{ name := "Compile", conclusion := some "success" }],
    completed_at := some 50, started_at := some 40 }

/-- Sample failed job with a failed step. -/
def jobFail1 : Job :=
  { id := 2, name := "test", conclusion := some "failure",
    steps := some [{ name := "Build", conclusion := some "failure" }],
    completed_at := some 100, started_at := some 90 }

/-- Sample timed-out job, earlier completion than `jobFail1`. -/
def jobFail2 : Job :=
  { id := 3, name := "lint", conclusion := some "timed_out", steps := none,
    completed_at := some 70, started_at := some 60 }

/-- Sample valid inputs. -/
def inpOk : Inputs :=
  { openrouterApiKey := some "key", model := some "m",
    promptTemplate := some ("Analyze: " ++ tokenOf "LOG"),
    maxLogLines := none, githubToken := some "tok" }

/-- The configuration `validateInputs` produces from `inpOk`. -/
def cfgOk : Config :=
  { apiKey := "key", model := "m",
    promptTemplate := "Analyze: " ++ tokenOf "LOG",
    maxLogLines := 500, githubToken := "tok" }

/-- Environment of a succeeded run. -/
def envSuccess : EnvData :=
  { runConclusion := some "success", workflowName := "wf", jobs := [],
    logText := "", backendResult := .ok "unused", prNumber := none,
    existingCommentId := none }

/-- Environment with an absent (empty) run conclusion and no jobs. -/
def envEmptyConclusion : EnvData :=
  { runConclusion := none, workflowName := "wf", jobs := [],
    logText := "", backendResult := .ok "unused", prNumber := none,
    existingCommentId := none }

/-- Environment whose OpenRouter call fails. -/
def envBackendFail : EnvData :=
  { runConclusion := some "failure", workflowName := "wf", jobs := [jobFail1],
    logText := "line1\nline2", backendResult := .error "boom",
    prNumber := some 7, existingCommentId := none }

/-- Environment whose jobs list has no failure candidate. -/
def envNoCandidate : EnvData :=
  { runConclusion := some "cancelled", workflowName := "wf", jobs := [jobOk],
    logText := "", backendResult := .ok "unused", prNumber := some 7,
    existingCommentId := some 11 }

/-- Inputs whose template is exactly the LOG token. -/
def inpTokenOnly : Inputs :=
  { openrouterApiKey := some "key", model := some "m",
    promptTemplate := some (tokenOf "LOG"),
    maxLogLines := none, githubToken := some "tok" }

/-- Environment with a whitespace-only (single space) job log. -/
def envSpaceLog : EnvData :=
  { runConclusion := some "failure", workflowName := "wf", jobs := [jobFail1],
    logText := " ", backendResult := .ok "fine", prNumber := none,
    existingCommentId := none }


theorem insertByTimeDesc_ne_nil (x : Job) (l : List Job) :
    insertByTimeDesc x l ≠ [] := by
  cases l with
  | nil => simp [insertByTimeDesc]
  | cons y ys =>
    unfold insertByTimeDesc
    split <;> simp


theorem sortByTimeDesc_eq_nil {l : List Job} (h : sortByTimeDesc l = []) :
    l = [] := by
  cases l with
  | nil => rfl
  | cons x xs => exact absurd h (insertByTimeDesc_ne_nil x (sortByTimeDesc xs))


theorem find?_congr_mem {α : Type} (p q : α → Bool) :
    ∀ l : List α, (∀ x ∈ l, p x = q x) → l.find? p = l.find? q
  | [], _ => rfl
  | x :: xs, h => by
    have hx : p x = q x := h x (List.mem_cons_self x xs)
    have ih := find?_congr_mem p q xs (fun z hz => h z (List.mem_cons_of_mem x hz))
    simp only [List.find?]
    rw [hx, ih]

/-- The head of the stable descending sort is the first element (in input
order) whose `jobTime` dominates the whole list. -/
theorem head?_sortByTimeDesc :
    ∀ l : List Job,
      (sortByTimeDesc l).head? = l.find? (fun j => l.all (fun k => jobTime k ≤ jobTime j))
  | [] => rfl
  | x :: xs => by
    rcases hs : sortByTimeDesc xs with _ | ⟨y, ys⟩
    · have hxs : xs = [] := sortByTimeDesc_eq_nil hs
      subst hxs
      simp [sortByTimeDesc, insertByTimeDesc, List.find?, List.all]
    · have ih := head?_sortByTimeDesc xs
      rw [hs] at ih
      simp only [List.head?] at ih
      have hy_mem : y ∈ xs := List.mem_of_find?_eq_some ih.symm
      have hy_all := List.find?_some ih.symm
      simp only at hy_all
      have hy_dom : ∀ k ∈ xs, jobTime k ≤ jobTime y := by
        intro k hk
        have := (List.all_eq_true.mp hy_all) k hk
        simpa using this
      show (insertByTimeDesc x (sortByTimeDesc xs)).head? = _
      rw [hs]
      by_cases hxy : jobTime y ≤ jobTime x
      · have hx_all : ((x :: xs).all (fun k => jobTime k ≤ jobTime x)) = true := by
          simp only [List.all_cons, Bool.and_eq_true, decide_eq_true_eq]
          exact ⟨le_refl _, List.all_eq_true.mpr
            (fun k hk => by simpa using le_trans (hy_dom k hk) hxy)⟩
        simp only [insertByTimeDesc, if_pos hxy, List.head?, List.find?, hx_all]
      · have hx_not : ((x :: xs).all (fun k => jobTime k ≤ jobTime x)) = false := by
          simp only [List.all_cons, Bool.and_eq_true, decide_eq_true_eq,
            Bool.and_eq_false_iff, List.all_eq_false]
          right
          exact ⟨y, hy_mem, by simpa using hxy⟩
        have hcongr : ∀ z ∈ xs,
            (fun j => (x :: xs).all (fun k => jobTime k ≤ jobTime j)) z
              = (fun j => xs.all (fun k => jobTime k ≤ jobTime j)) z := by
          intro z hz
          simp only [List.all_cons, Bool.and_eq_true, decide_eq_true_eq]
          by_cases hzall : xs.all (fun k => jobTime k ≤ jobTime z) = true
          · have hyz : jobTime y ≤ jobTime z := by
              have := (List.all_eq_true.mp hzall) y hy_mem
              simpa using this
            have hxz : jobTime x ≤ jobTime z :=
              le_trans (le_of_not_le hxy) hyz
            simp [hzall, hxz]
          · simp only [Bool.not_eq_true] at hzall
            simp [hzall]
        simp only [insertByTimeDesc, if_neg hxy, List.head?, List.find?, hx_not]
        rw [find?_congr_mem _ _ xs hcongr, ← ih]


theorem splitRN_ne_nil (l : List Char) : splitRN l ≠ [] := by
  unfold splitRN
  split <;> try simp
  split <;> simp


theorem joinNL_cons_cons (a b : List Char) (t : List (List Char)) :
    joinNL (a :: b :: t) = a ++ '\n' :: joinNL (b :: t) := rfl


theorem joinNL_cons_head (c : Char) (l : List Char) (ls : List (List Char)) :
    joinNL ((c :: l) :: ls) = c :: joinNL (l :: ls) := by
  cases ls <;> rfl



theorem splitRN_nil : splitRN [] = [[]] := rfl


theorem splitRN_nl (rest : List Char) : splitRN ('\n' :: rest) = [] :: splitRN rest := rfl


theorem splitRN_crnl (rest : List Char) :
    splitRN ('\x0d' :: '\n' :: rest) = [] :: splitRN rest := rfl


theorem splitRN_catchall (c : Char) (rest : List Char) (r : List Char) (rs : List (List Char))
    (h1 : (c = '\n' → False))
    (h2 : ∀ rt, c = '\x0d' → rest = '\n' :: rt → False)
    (h3 : splitRN rest = r :: rs) :
    splitRN (c :: rest) = (c :: r) :: rs := by
  rw [splitRN.eq_def]
  split
  · rename_i heq
    exact List.noConfusion heq
  · rename_i rest' heq
    injection heq with hc _
    exact absurd hc h1
  · rename_i rest' heq
    injection heq with hc hrest
    exact (h2 rest' hc hrest).elim
  · rename_i c' rest' heq
    injection heq with hc hrest
    subst hc hrest
    rw [h3]


theorem normNL_catchall (c : Char) (rest : List Char)
    (h1 : (c = '\n' → False))
    (h2 : ∀ rt, c = '\x0d' → rest = '\n' :: rt → False) :
    normNL (c :: rest) = c :: normNL rest := by
  rw [normNL.eq_def]
  split
  · rename_i heq
    exact List.noConfusion heq
  · rename_i rest' heq
    injection heq with hc _
    exact absurd hc h1
  · rename_i rest' heq
    injection heq with hc hrest
    exact (h2 rest' hc hrest).elim
  · rename_i c' rest' heq
    injection heq with hc hrest
    subst hc hrest
    rfl

/-- Splitting on `\r?\n` and rejoining with `'\n'` normalises `'\r''\n'`
to `'\n'` and changes nothing else: the "full text unchanged (rejoined
with a single newline convention)" branch of `trimLog`. -/
theorem joinNL_splitRN (l : List Char) : joinNL (splitRN l) = normNL l := by
  induction l using splitRN.induct with
  | case1 => rfl
  | case2 rest ih =>
    rcases h : splitRN rest with _ | ⟨r, rs⟩
    · exact absurd h (splitRN_ne_nil rest)
    · rw [splitRN_nl, h, joinNL_cons_cons]
      show '\n' :: joinNL (r :: rs) = normNL ('\n' :: rest)
      rw [← h, ih]
      rfl
  | case3 rest ih =>
    rcases h : splitRN rest with _ | ⟨r, rs⟩
    · exact absurd h (splitRN_ne_nil rest)
    · rw [splitRN_crnl, h, joinNL_cons_cons]
      show '\n' :: joinNL (r :: rs) = normNL ('\x0d' :: '\n' :: rest)
      rw [← h, ih]
      rfl
  | case4 c rest h1 h2 h3 ih => exact absurd h3 (splitRN_ne_nil rest)
  | case5 c rest h1 h2 r rs h3 ih =>
    rw [splitRN_catchall c rest r rs h1 h2 h3, normNL_catchall c rest h1 h2,
      joinNL_cons_head, ← h3, ih]

/-- Appending a final newline adds exactly one (empty) line to the split:
the trailing-empty-line behaviour of `trimLog`'s line counting. -/
theorem splitRN_append_nl (l : List Char) :
    (splitRN (l ++ ['\n'])).length = (splitRN l).length + 1 := by
  induction l using splitRN.induct with
  | case1 => rfl
  | case2 rest ih =>
    show (splitRN ('\n' :: (rest ++ ['\n']))).length = _
    rw [splitRN_nl, splitRN_nl]
    simpa using ih
  | case3 rest ih =>
    show (splitRN ('\x0d' :: '\n' :: (rest ++ ['\n']))).length = _
    rw [splitRN_crnl, splitRN_crnl]
    simpa using ih
  | case4 c rest h1 h2 h3 ih => exact absurd h3 (splitRN_ne_nil rest)
  | case5 c rest h1 h2 r rs h3 ih =>
    rcases rest with _ | ⟨d, rt⟩
    · by_cases hc : c = '\x0d'
      · subst hc
        rfl
      · show (splitRN (c :: ['\n'])).length = (splitRN [c]).length + 1
        rw [splitRN_catchall c ['\n'] [] [[]] h1
            (fun rt' hcd _ => absurd hcd hc) (splitRN_nl [])]
        rw [splitRN_catchall c [] [] [] h1 h2 splitRN_nil]
        rfl
    · have h2' : ∀ rt', c = '\x0d' → (d :: rt) ++ ['\n'] = '\n' :: rt' → False := by
        intro rt' hcd heq
        injection heq with hd _
        exact h2 rt hcd (by rw [hd])
      rcases h4 : splitRN ((d :: rt) ++ ['\n']) with _ | ⟨r2, rs2⟩
      · exact absurd h4 (splitRN_ne_nil _)
      · show (splitRN (c :: ((d :: rt) ++ ['\n']))).length = _
        rw [splitRN_catchall c ((d :: rt) ++ ['\n']) r2 rs2 h1 h2' h4,
          splitRN_catchall c (d :: rt) r rs h1 h2 h3]
        have := ih
        rw [h4, h3] at this
        simp only [List.length_cons] at this ⊢
        omega


theorem prefixOf_iff (l₁ l₂ : List Char) : l₁.isPrefixOf l₂ = true ↔ l₁ <+: l₂ :=
  List.isPrefixOf_iff_prefix


theorem splitGoFuel_fuel_irrel (a : Char) (p : List Char) :
    ∀ n m s, s.length ≤ n → s.length ≤ m →
      splitGoFuel a p n s = splitGoFuel a p m s := by
  intro n
  induction n with
  | zero =>
    intro m s hn _
    have : s = [] := List.eq_nil_of_length_eq_zero (Nat.le_zero.mp hn)
    subst this
    cases m <;> rfl
  | succ n ih =>
    intro m s hn hm
    cases s with
    | nil => cases m <;> rfl
    | cons c rest =>
      cases m with
      | zero => exact absurd hm (by simp)
      | succ m =>
        simp only [splitGoFuel]
        have hrest : rest.length ≤ n := by simp at hn; omega
        have hrest' : rest.length ≤ m := by simp at hm; omega
        have hdrop : (rest.drop p.length).length ≤ n :=
          le_trans (by simp [List.length_drop]) hrest
        have hdrop' : (rest.drop p.length).length ≤ m :=
          le_trans (by simp [List.length_drop]) hrest'
        rw [ih m (rest.drop p.length) hdrop hdrop', ih m rest hrest hrest']


theorem splitGo_nil (a : Char) (p : List Char) : splitGo a p [] = [[]] := rfl

/-- Reduction of `splitGo` at a match position. -/
theorem splitGo_pos (a : Char) (p : List Char) (c : Char) (rest : List Char)
    (h : (a :: p).isPrefixOf (c :: rest) = true) :
    splitGo a p (c :: rest) = [] :: splitGo a p (rest.drop p.length) := by
  show splitGoFuel a p (c :: rest).length (c :: rest) = _
  simp only [List.length_cons, splitGoFuel, h, if_true]
  rw [splitGoFuel_fuel_irrel a p rest.length (rest.drop p.length).length
    (rest.drop p.length) (by simp [List.length_drop]) (le_refl _)]
  rfl

/-- Reduction of `splitGo` at a non-match position. -/
theorem splitGo_neg (a : Char) (p : List Char) (c : Char) (rest : List Char)
    (h : (a :: p).isPrefixOf (c :: rest) = false) :
    splitGo a p (c :: rest) =
      match splitGo a p rest with
      | [] => [[c]]
      | l :: ls => (c :: l) :: ls := by
  show splitGoFuel a p (c :: rest).length (c :: rest) = _
  simp only [List.length_cons, splitGoFuel, h, Bool.false_eq_true, if_false]
  rfl


theorem splitGo_ne_nil (a : Char) (p : List Char) (s : List Char) :
    splitGo a p s ≠ [] := by
  cases s with
  | nil => simp [splitGo_nil]
  | cons c rest =>
    by_cases h : (a :: p).isPrefixOf (c :: rest) = true
    · rw [splitGo_pos a p c rest h]
      simp
    · rw [splitGo_neg a p c rest (Bool.not_eq_true _ ▸ (by simpa using h))]
      split <;> simp

/-- A pattern-free text is one single piece of the split. -/
theorem splitGo_nocc (a : Char) (p : List Char) :
    ∀ s, containsList s (a :: p) = false → splitGo a p s = [s]
  | [], _ => rfl
  | c :: rest, h => by
    simp only [containsList, Bool.or_eq_false_iff] at h
    rw [splitGo_neg a p c rest h.1, splitGo_nocc a p rest h.2]

/-- No match can start inside a pattern-free block that is followed by the
pattern itself: a match overlapping the block/pattern boundary would
exhibit a border of the pattern. -/
theorem noMatch_at_block (a : Char) (p : List Char) (hb : Borderless (a :: p)) :
    ∀ (c : Char) (A' t : List Char),
      containsList (c :: A') (a :: p) = false →
      (a :: p).isPrefixOf (c :: (A' ++ ((a :: p) ++ t))) = false := by
  intro c A' t hfree
  by_contra hcon
  rw [Bool.not_eq_false] at hcon
  have hpre : (a :: p) <+: (c :: A') ++ ((a :: p) ++ t) := (prefixOf_iff _ _).mp hcon
  set P : List Char := a :: p with hP
  set A : List Char := c :: A' with hA
  have htake : P = ((A ++ (P ++ t))).take P.length := List.prefix_iff_eq_take.mp hpre
  by_cases hlen : P.length ≤ A.length
  · -- the whole pattern would lie inside the pattern-free block
    have hthis : P = A.take P.length := by
      nth_rewrite 1 [htake]
      rw [List.take_append_eq_append_take,
        Nat.sub_eq_zero_of_le hlen, List.take_zero, List.append_nil]
    have hPA : P <+: A := by
      refine ⟨A.drop P.length, ?_⟩
      nth_rewrite 1 [hthis]
      rw [List.take_append_drop]
    have hpf : P.isPrefixOf A = true := (prefixOf_iff _ _).mpr hPA
    simp only [containsList, hA, hpf, Bool.true_or] at hfree
    exact Bool.noConfusion hfree
  · -- the match would straddle the boundary: exhibits a border of P
    push_neg at hlen
    have hApos : 0 < A.length := by simp [hA]
    have h2 : P.drop A.length = P.take (P.length - A.length) := by
      conv_lhs => rw [htake]
      rw [List.drop_take, List.drop_left, List.take_append_eq_append_take]
      have h0 : P.length - A.length - P.length = 0 := by omega
      rw [h0, List.take_zero, List.append_nil]
    have hk1 : P.length - A.length < P.length := by omega
    have hk2 : 0 < P.length - A.length := by omega
    have hbrd := hb (P.length - A.length) hk1 hk2
    have heq : P.length - (P.length - A.length) = A.length := by omega
    rw [heq] at hbrd
    exact hbrd h2.symm

/-- Splitting a pattern-free block followed by the pattern peels the block
off as one piece. -/
theorem splitGo_block (a : Char) (p : List Char) (hb : Borderless (a :: p)) :
    ∀ (A t : List Char), containsList A (a :: p) = false →
      splitGo a p (A ++ ((a :: p) ++ t)) = A :: splitGo a p t
  | [], t, _ => by
    show splitGo a p (a :: (p ++ t)) = [] :: splitGo a p t
    rw [splitGo_pos a p a (p ++ t) ((prefixOf_iff _ _).mpr (by
      show (a :: p) <+: (a :: p) ++ t
      exact List.prefix_append _ _)), List.drop_left]
  | c :: A', t, hfree => by
    have hfree' : containsList A' (a :: p) = false := by
      simp only [containsList, Bool.or_eq_false_iff] at hfree
      exact hfree.2
    have hnp := noMatch_at_block a p hb c A' t hfree
    show splitGo a p (c :: (A' ++ ((a :: p) ++ t))) = (c :: A') :: splitGo a p t
    rw [splitGo_neg a p c _ hnp, splitGo_block a p hb A' t hfree']

/-- Splitting the interleaving of pattern-free pieces with the pattern
recovers exactly the pieces. -/
theorem splitGo_intercalate (a : Char) (p : List Char) (hb : Borderless (a :: p)) :
    ∀ pieces : List (List Char), pieces ≠ [] →
      (∀ x ∈ pieces, containsList x (a :: p) = false) →
      splitGo a p (intercalateL (a :: p) pieces) = pieces
  | [], hne, _ => absurd rfl hne
  | [x], _, hfree => by
    show splitGo a p x = [x]
    exact splitGo_nocc a p x (hfree x (by simp))
  | x :: y :: tl, _, hfree => by
    show splitGo a p (x ++ (a :: p) ++ intercalateL (a :: p) (y :: tl)) = _
    rw [List.append_assoc,
      splitGo_block a p hb x _ (hfree x (by simp)),
      splitGo_intercalate a p hb (y :: tl) (by simp)
        (fun z hz => hfree z (List.mem_cons_of_mem x hz))]

/-- C1: for every jobs list with at least two failure candidates,
`pickFailedJob` returns the candidate with the latest completion (fallback
start) timestamp, and on equal timestamps the candidate earlier in input
order — i.e. it agrees with the specification-side selection
`latestFailedJobSpec` (first candidate in input order whose timestamp
dominates all candidates). -/
theorem c1_pickFailedJob_latest (jobs : List Job)
    (h : 2 ≤ (jobs.filter isFailedJob).length) :
    pickFailedJob jobs = latestFailedJobSpec jobs :=
  head?_sortByTimeDesc (jobs.filter isFailedJob)

/-- C1 witness: a concrete jobs list with two failure candidates. -/
theorem c1_witness :
    2 ≤ ([jobFail1, jobOk, jobFail2].filter isFailedJob).length ∧
    pickFailedJob [jobFail1, jobOk, jobFail2] =
      latestFailedJobSpec [jobFail1, jobOk, jobFail2] :=
  ⟨by decide, c1_pickFailedJob_latest [jobFail1, jobOk, jobFail2] (by decide)⟩

/-- C4: `createOrUpdateComment` with a (positive) existing comment id
issues exactly one PATCH of that comment's body and no creation; with no
existing id it issues exactly one POST creating the comment on the issue
thread. -/
theorem c4_upsert (issue : Nat) (body : String) :
    (∀ cid, 0 < cid →
      createOrUpdateComment issue body (some cid) = .patchComment cid body) ∧
    createOrUpdateComment issue body none = .postComment issue body := by
  constructor
  · intro cid hpos
    show (if cid = 0 then CommentRequest.postComment issue body
      else CommentRequest.patchComment cid body) = _
    rw [if_neg (by omega)]
  · rfl

/-- C4 witness: concrete update and create. -/
theorem c4_witness :
    0 < 5 ∧
    createOrUpdateComment 9 "b" (some 5) = .patchComment 5 "b" ∧
    createOrUpdateComment 9 "b" none = .postComment 9 "b" :=
  ⟨by decide, (c4_upsert 9 "b").1 5 (by decide), (c4_upsert 9 "b").2⟩


theorem trimLog_total (s : String) (m : Nat) :
    (trimLog s m).2 = (splitRN s.data).length := by
  simp only [trimLog]
  split <;> rfl

/-- C10: `trimLog` counts a trailing empty line: appending a final newline
increases the reported total by one, and the empty log reports total 1
(not 0). -/
theorem c10_trailing_newline (l : List Char) (m : Nat) :
    (trimLog ⟨l ++ ['\n']⟩ m).2 = (trimLog ⟨l⟩ m).2 + 1 ∧
    (trimLog "" m).2 = 1 := by
  constructor
  · rw [trimLog_total, trimLog_total]
    exact splitRN_append_nl l
  · rw [trimLog_total]
    rfl

/-- C3: for positive `maxLines`, `trimLog` always reports the true
pre-trim line count; when the text fits it returns the full text rejoined
with a single-newline convention (CRLF normalised to LF, nothing else
changed); otherwise it returns exactly the rejoined last `maxLines`
lines. -/
theorem c3_trimLog_spec (text : String) (m : Nat) (hm : 0 < m) :
    (trimLog text m).2 = (splitRN text.data).length ∧
    ((splitRN text.data).length ≤ m →
      (trimLog text m).1.data = normNL text.data) ∧
    (m < (splitRN text.data).length →
      (trimLog text m).1.data =
        joinNL ((splitRN text.data).drop ((splitRN text.data).length - m)) ∧
      ((splitRN text.data).drop ((splitRN text.data).length - m)).length = m) := by
  refine ⟨trimLog_total text m, ?_, ?_⟩
  · intro hle
    simp only [trimLog, if_pos hle]
    exact joinNL_splitRN text.data
  · intro hgt
    have hnle : ¬ (splitRN text.data).length ≤ m := by omega
    constructor
    · simp only [trimLog, if_neg hnle, sliceLast, if_neg (by omega : ¬ m = 0)]
    · rw [List.length_drop]
      omega

/-- C3 witness: a five-line log trimmed to two lines. -/
theorem c3_witness :
    0 < 2 ∧
    (trimLog "a\nb\nc\nd\ne" 2).2 = (splitRN "a\nb\nc\nd\ne".data).length ∧
    (trimLog "a\nb\nc\nd\ne" 2).1.data =
      joinNL ((splitRN "a\nb\nc\nd\ne".data).drop
        ((splitRN "a\nb\nc\nd\ne".data).length - 2)) :=
  ⟨by decide, (c3_trimLog_spec "a\nb\nc\nd\ne" 2 (by decide)).1,
    ((c3_trimLog_spec "a\nb\nc\nd\ne" 2 (by decide)).2.2 (by decide)).1⟩

/-- C2 counterexample: a run whose conclusion is absent (normalises to the
empty string, which is outside the failure set) does NOT make the
orchestrator exit at the run-status gate — the jobs fetch still happens
(`runConclusion && ...` is falsy for the empty string, so the gate is
skipped).  This refutes the claim for the "empty/unknown conclusion"
case. -/
theorem c2_counterexample :
    FAILURE_CONCLUSIONS.contains
      (jsToLower ((envEmptyConclusion.runConclusion).getD "")) = false ∧
    shouldSkipRun envEmptyConclusion.runConclusion = false ∧
    (mainModel inpOk envEmptyConclusion).jobsFetched = true := by decide

/-- C2 (amended): for every run whose conclusion is nonempty (after
lower-casing) and outside the failure set, the orchestrator exits without
analysis: no jobs fetch, no log fetch, no backend call, no comment, no
error.  An absent/empty conclusion does not exit (see the
counterexample). -/
theorem c2_gate_skips_nonfailure (inp : Inputs) (env : EnvData) (cfg : Config)
    (hv : validateInputs inp = .ok cfg)
    (hne : jsToLower (env.runConclusion.getD "") ≠ "")
    (hns : FAILURE_CONCLUSIONS.contains (jsToLower (env.runConclusion.getD "")) = false) :
    mainModel inp env = {} := by
  have hskip : shouldSkipRun env.runConclusion = true := by
    unfold shouldSkipRun
    rw [hns]
    simp [hne]
  simp [mainModel, hv, runWith, hskip]

/-- C2 witness: conclusion "success" exits cleanly. -/
theorem c2_witness :
    jsToLower ((envSuccess.runConclusion).getD "") ≠ "" ∧
    mainModel inpOk envSuccess = {} :=
  ⟨by decide, c2_gate_skips_nonfailure inpOk envSuccess cfgOk (by decide)
    (by decide) (by decide)⟩

/-- C7: when the backend call fails, the orchestrator does not abort: the
analysis becomes the fixed diagnostic string embedding the error message,
and a comment request is still issued when a pull-request context
exists. -/
theorem c7_backend_failure_absorbed (inp : Inputs) (env : EnvData)
    (cfg : Config) (j : Job) (m : String) (pr : Nat)
    (hv : validateInputs inp = .ok cfg)
    (hgate : shouldSkipRun env.runConclusion = false)
    (hpick : pickFailedJob env.jobs = some j)
    (hbe : env.backendResult = .error m)
    (hpr : env.prNumber = some pr)
    (hpr0 : pr ≠ 0) :
    (mainModel inp env).error = none ∧
    (mainModel inp env).analysis =
      some ("Не удалось получить ответ от OpenRouter: " ++ m) ∧
    (mainModel inp env).commentOp.isSome = true := by
  rcases hj : env.jobs with _ | ⟨a, l⟩
  · rw [hj] at hpick
    exact absurd hpick (by simp [pickFailedJob, sortByTimeDesc])
  · have hie : env.jobs.isEmpty = false := by rw [hj]; rfl
    have hm : mainModel inp env = analyzeJob cfg env j := by
      simp [mainModel, hv, runWith, hgate, hie, hpick]
    rw [hm]
    simp [analyzeJob, hbe, hpr, hpr0]

/-- C7 witness: a concrete failing backend with a PR context. -/
theorem c7_witness :
    pickFailedJob envBackendFail.jobs = some jobFail1 ∧
    (mainModel inpOk envBackendFail).analysis =
      some "Не удалось получить ответ от OpenRouter: boom" ∧
    (mainModel inpOk envBackendFail).commentOp.isSome = true := by
  have h := c7_backend_failure_absorbed inpOk envBackendFail cfgOk jobFail1
    "boom" 7 (by decide) (by decide) (by decide) (by decide) (by decide)
    (by decide)
  exact ⟨by decide, h.2.1, h.2.2⟩

/-- C8: with zero failure candidates (no job conclusion nor step
conclusion in the failure set), `pickFailedJob` returns no job and the
orchestrator aborts with the fixed error, performing no log fetch, no
backend call and no comment action. -/
theorem c8_no_candidates_aborts (inp : Inputs) (env : EnvData) (cfg : Config)
    (hv : validateInputs inp = .ok cfg)
    (hgate : shouldSkipRun env.runConclusion = false)
    (hne : env.jobs ≠ [])
    (hzero : env.jobs.filter isFailedJob = []) :
    pickFailedJob env.jobs = none ∧
    (mainModel inp env).error = some "Failed to locate a failed job; aborting." ∧
    (mainModel inp env).logFetched = false ∧
    (mainModel inp env).backendCalled = false ∧
    (mainModel inp env).commentOp = none := by
  have hpick : pickFailedJob env.jobs = none := by
    unfold pickFailedJob
    rw [hzero]
    rfl
  rcases hj : env.jobs with _ | ⟨a, l⟩
  · exact absurd hj hne
  · have hie : env.jobs.isEmpty = false := by rw [hj]; rfl
    rw [hj] at hpick
    refine ⟨hpick, ?_, ?_, ?_, ?_⟩ <;>
      simp [mainModel, hv, runWith, hgate, hie, hj, hpick]

/-- C8 witness: one succeeded job, no candidate. -/
theorem c8_witness :
    envNoCandidate.jobs.filter isFailedJob = [] ∧
    pickFailedJob envNoCandidate.jobs = none ∧
    (mainModel inpOk envNoCandidate).error =
      some "Failed to locate a failed job; aborting." ∧
    (mainModel inpOk envNoCandidate).commentOp = none := by
  have h := c8_no_candidates_aborts inpOk envNoCandidate cfgOk (by decide)
    (by decide) (by decide) (by decide)
  exact ⟨by decide, h.1, h.2.1, h.2.2.2.2⟩

/-- C5 counterexample: a whitespace-only log (a single space) is a truthy
JS string, so `trimmedLog || 'Log is empty.'` keeps it: the prompt embeds
the space instead of the sentinel, refuting the claim for whitespace-only
logs. -/
theorem c5_counterexample :
    (trimLog " " 500).1 = " " ∧
    logForPrompt ((trimLog " " 500).1) = " " ∧
    (mainModel inpTokenOnly envSpaceLog).prompt = some " " ∧
    (" " : String) ≠ "Log is empty." := by decide

/-- C5 (amended): the sentinel is substituted exactly when the trimmed
log text is the empty string — in particular, for every `maxLines`, the
completely empty log renders as the sentinel; a whitespace-only but
nonempty log is embedded verbatim (see the counterexample). -/
theorem c5_empty_log_sentinel (m : Nat) :
    logForPrompt ((trimLog "" m).1) = "Log is empty." := by
  cases m with
  | zero => decide
  | succ k =>
    have hle : (splitRN ("" : String).data).length ≤ k + 1 := by
      show 1 ≤ k + 1
      omega
    simp only [trimLog, if_pos hle]
    decide

/-- C9 counterexample: the input string "3.7" is not a positive integer,
yet it is not rejected: `Number.parseInt("3.7", 10)` is `3`, which passes
the positivity check, so validation accepts it (as 3). -/
theorem c9_counterexample :
    resolveMaxLogLines (some "3.7") = .ok 3 ∧
    validateInputs { inpOk with maxLogLines := some "3.7" } =
      .ok { cfgOk with maxLogLines := 3 } := by decide

/-- C9 (amended): `max_log_lines` defaults to 500 when absent; a supplied
value is rejected (with the fixed descriptive error) exactly when its
base-10 `parseInt` is NaN or nonpositive — a value with a positive integer
prefix such as "3.7" is accepted as that prefix — so every accepted value
is a positive integer, and any validation error aborts `main` before any
fetch or action. -/
theorem c9_maxLogLines_validation :
    resolveMaxLogLines none = .ok 500 ∧
    (∀ v i, resolveMaxLogLines v = .ok i → 0 < i) ∧
    (∀ inp env e, validateInputs inp = .error e →
      mainModel inp env = { error := some e }) := by
  refine ⟨by decide, ?_, ?_⟩
  · intro v i h
    unfold resolveMaxLogLines at h
    rcases hg : getInputModel "max_log_lines" v false "500" with e | s
    · rw [hg] at h
      exact Except.noConfusion h
    · rw [hg] at h
      replace h : (match parseIntDec s with
        | none => (Except.error "max_log_lines must be a positive integer." : Except String Int)
        | some i =>
          if i ≤ 0 then Except.error "max_log_lines must be a positive integer."
          else Except.ok i) = Except.ok i := h
      rcases hp : parseIntDec s with _ | n
      · rw [hp] at h
        exact Except.noConfusion h
      · rw [hp] at h
        replace h : (if n ≤ 0
            then (Except.error "max_log_lines must be a positive integer." : Except String Int)
            else Except.ok n) = Except.ok i := h
        by_cases hn : n ≤ 0
        · rw [if_pos hn] at h
          exact Except.noConfusion h
        · rw [if_neg hn] at h
          injection h with h'
          omega
  · intro inp env e h
    simp [mainModel, h]

/-- C9 witness: a concrete accepted value is positive, and the default is
500. -/
theorem c9_witness :
    resolveMaxLogLines (some "42") = .ok 42 ∧ 0 < (42 : Int) ∧
    resolveMaxLogLines none = .ok 500 :=
  ⟨by decide, c9_maxLogLines_validation.2.1 (some "42") 42 (by decide),
    c9_maxLogLines_validation.1⟩

/-- C6 counterexample: substitution order matters when a substituted value
contains another key's token: with the template being the LOG token and
LOG ↦ the JOB_NAME token, processing LOG before JOB_NAME yields "J", the
reverse order leaves the JOB_NAME token in place.  This refutes
order-independence as claimed. -/
theorem c6_counterexample :
    renderTemplate (tokenOf "LOG")
      [("LOG", tokenOf "JOB_NAME"), ("JOB_NAME", "J")] = "J" ∧
    renderTemplate (tokenOf "LOG")
      [("JOB_NAME", "J"), ("LOG", tokenOf "JOB_NAME")] = tokenOf "JOB_NAME" ∧
    ("J" : String) ≠ tokenOf "JOB_NAME" := by decide

/-- C6 (amended): `renderTemplate` applies the per-key replacements
sequentially in entry order, and each application replaces every
occurrence of that key's token present at that point (not just the
first): a template made of token-free pieces joined by the LOG token
renders, under LOG ↦ v, as the pieces joined by v.  Order-independence
fails in general when a substituted value contains another key's token
(see the counterexample). -/
theorem c6_render_replaces_all (pieces : List (List Char)) (v : String)
    (hne : pieces ≠ [])
    (hfree : ∀ x ∈ pieces, containsList x (tokenOf "LOG").data = false) :
    renderTemplate ⟨intercalateL (tokenOf "LOG").data pieces⟩ [("LOG", v)] =
      ⟨intercalateL v.data pieces⟩ := by
  have hb : Borderless ('{' :: ('{' :: ("LOG".data ++ ['}', '}']))) := by decide
  have hfree' : ∀ x ∈ pieces,
      containsList x ('{' :: ('{' :: ("LOG".data ++ ['}', '}']))) = false := hfree
  show (⟨intercalateL v.data
      (splitGo '{' ('{' :: ("LOG".data ++ ['}', '}']))
        (intercalateL ('{' :: ('{' :: ("LOG".data ++ ['}', '}']))) pieces))⟩ : String) =
    ⟨intercalateL v.data pieces⟩
  rw [splitGo_intercalate '{' ('{' :: ("LOG".data ++ ['}', '}'])) hb pieces hne hfree']

/-- C6 witness: three occurrences of the LOG token between four pieces all
become "X" (the spec's three-occurrence test). -/
theorem c6_witness :
    (["a".data, "b".data, "c".data, "d".data] : List (List Char)) ≠ [] ∧
    renderTemplate
      ⟨intercalateL (tokenOf "LOG").data ["a".data, "b".data, "c".data, "d".data]⟩
      [("LOG", "X")] =
      ⟨intercalateL "X".data ["a".data, "b".data, "c".data, "d".data]⟩ :=
  ⟨by decide, c6_render_replaces_all ["a".data, "b".data, "c".data, "d".data]
    "X" (by decide) (by decide)⟩
